import Mathlib

/-!
Verification of the Handestiy e-commerce backend (FastAPI + MongoDB).

Shallow embedding conventions:
- Python `str` values are modelled as `List Char` (abbreviated `Str`), so that
  every definition evaluates inside the kernel on concrete inputs.
- UTC timestamps are modelled as `Int` seconds; `timedelta(hours=8)` is
  `8 * 3600` seconds.
- Monetary amounts (pydantic `float` fields) are modelled as `Int`; only
  equality and ordering of these fields matter to the verified routes.
- MongoDB is the document store: a collection is a `List` of documents,
  `find_one` is `List.find?` (first match), `find(q)` is `List.filter`,
  a Mongo single-key sort is modelled by a stable insertion sort on the key,
  `update_one` updates the first matching document, `insert_one` appends a
  document carrying a fresh store-assigned identifier.
- `datetime.now(timezone.utc)`, `secrets.token_hex(24)` and the
  store-assigned `_id` are nondeterministic inputs of the environment, so
  they are passed as explicit parameters (`now`, fresh token, fresh id).
- `hashlib.sha256(...).hexdigest()` is an external one-way digest; the code
  only ever compares digests for equality, so the hash is passed as an
  explicit function parameter `H`.
- FastAPI errors (`HTTPException(status_code = c)`) are `Except.error c`.
-/

/-- Python strings, modelled as lists of characters. -/
abbrev Str := List Char

/-- Test whether `s` has `pre` as its leading characters, as in the Python
expression `s.startswith(pre)`. -/
def strStartsWith : Str → Str → Bool
  | _, [] => true
  | [], _ :: _ => false
  | c :: cs, p :: ps => decide (c = p) && strStartsWith cs ps

/-- The remainder of a string after its first space character, as in the
Python expression `s.split(" ", 1)[1]` (total: returns `[]` when the
string has no space, a case the code guards against). -/
def afterFirstSpace : Str → Str
  | [] => []
  | c :: cs => if c = ' ' then cs else afterFirstSpace cs

/-- Lexicographic string comparison on character codes, the order MongoDB
uses for a `sort("name", 1)` on ASCII string fields. -/
def strLe : Str → Str → Bool
  | [], _ => true
  | _ :: _, [] => false
  | a :: as, b :: bs =>
    if a.toNat < b.toNat then true
    else if b.toNat < a.toNat then false
    else strLe as bs

-- ---------------------- Sorting (model of a Mongo single-key sort) ----

/-- Insert an element into a list so that it lands before the first element
it compares `le` to; auxiliary to `sortBy`. -/
def sortedInsert (le : α → α → Bool) (a : α) : List α → List α
  | [] => [a]
  | b :: bs => if le a b then a :: b :: bs else b :: sortedInsert le a bs

/-- Stable insertion sort with a boolean comparison; models the document
store sorting a result set on a single key. -/
def sortBy (le : α → α → Bool) : List α → List α
  | [] => []
  | a :: as => sortedInsert le a (sortBy le as)

-- ---------------------- Auth data model ----------------------

/-- The embedded session token document `{token, expires_at}` stored on an
admin account and returned by `admin_login`. -/
structure TokenInfo where
  token : Str
  expires_at : Int
deriving DecidableEq

/-- A document of the `adminuser` collection: store id, email, password
digest, and the optional current session token. -/
structure AdminUser where
  id : Nat
  email : Str
  password : Str
  current_token : Option TokenInfo
deriving DecidableEq

/-- The Mongo query document `{"current_token.token": token}` of
`get_admin_by_token`, as a predicate on `adminuser` documents. -/
def tokenPred (token : Str) (a : AdminUser) : Bool :=
  match a.current_token with
  | some t => decide (t.token = token)
  | none => false

/-- Embedding of `get_admin_by_token`: an empty token never matches; else
find the first account whose `current_token.token` equals the presented
token, and reject it when the current time is strictly past its
`expires_at`. -/
def get_admin_by_token (now : Int) (store : List AdminUser) (token : Str) :
    Option AdminUser :=
  if token = [] then none
  else
    match store.find? (tokenPred token) with
    | none => none
    | some admin =>
      match admin.current_token with
      | some t => if now > t.expires_at then none else some admin
      | none => some admin

/-- Embedding of the `require_admin` dependency: 401 when the
`Authorization` header is absent or does not start with `Bearer `, else
look up the account by the text after the first space and 401 when the
lookup fails. -/
def require_admin (now : Int) (store : List AdminUser)
    (authorization : Option Str) : Except Nat AdminUser :=
  match authorization with
  | none => .error 401
  | some auth =>
    if strStartsWith auth ("Bearer ".toList) then
      match get_admin_by_token now store (afterFirstSpace auth) with
      | none => .error 401
      | some admin => .ok admin
    else .error 401

/-- Embedding of Mongo `update_one({_id: aid}, {$set: {current_token: ti}})`
on the `adminuser` collection: replace the token of the first document
whose id matches. -/
def setTokenFirst (store : List AdminUser) (aid : Nat) (ti : TokenInfo) :
    List AdminUser :=
  match store with
  | [] => []
  | a :: rest =>
    if a.id = aid then { a with current_token := some ti } :: rest
    else a :: setTokenFirst rest aid ti

/-- Embedding of `admin_login`: find the account by email, 401 when absent
or when the stored digest differs from `H password`; on success issue the
fresh token with expiry `now + 8` hours, persist it onto the account and
return the pair together with the updated collection. -/
def admin_login (H : Str → Str) (now : Int) (freshToken : Str)
    (store : List AdminUser) (email password : Str) :
    Except Nat (TokenInfo × List AdminUser) :=
  match store.find? (fun a => decide (a.email = email)) with
  | none => .error 401
  | some admin =>
    if admin.password = H password then
      let ti : TokenInfo := ⟨freshToken, now + 8 * 3600⟩
      .ok (ti, setTokenFirst store admin.id ti)
    else .error 401

-- ---------------------- Categories ----------------------

/-- A document of the `category` collection (schema fields plus the
`created_at` stamp added on insert). -/
structure Category where
  id : Nat
  name : Str
  slug : Str
  description : Option Str
  active : Bool
  created_at : Int
deriving DecidableEq

/-- Embedding of `GET /api/categories`. The parameter is declared
`Query(default=True)`, so FastAPI resolves an absent `active` parameter
(modelled as `none`) to `True` before the handler body runs; the handler
then builds the query `{active: true}` when the resolved value is truthy
and the empty query when it is falsy, and sorts the result by name
ascending. -/
def list_categories (store : List Category) (activeOpt : Option Bool) :
    List Category :=
  let active := activeOpt.getD true
  let q : Category → Bool :=
    if active = true then fun c => c.active else fun _ => true
  sortBy (fun a b => strLe a.name b.name) (store.filter q)

-- ---------------------- Products ----------------------

/-- A document of the `product` collection (schema fields plus the
`created_at` stamp added on insert). -/
structure Product where
  id : Nat
  title : Str
  slug : Str
  short_description : Option Str
  long_description : Option Str
  price : Int
  discount_price : Option Int
  category : Str
  stock : Nat
  materials : Option Str
  dimensions : Option Str
  images : List Str
  active : Bool
  created_at : Int
deriving DecidableEq

/-- The category clause of the `list_products` query: present only when
the category parameter is truthy (present and non-empty) and different
from the sentinel `All`. -/
def categoryCond : Option Str → Product → Bool
  | none, _ => true
  | some c, p =>
    if c = [] ∨ c = "All".toList then true else decide (p.category = c)

/-- The query built by `list_products`: always `{active: true}`, plus the
category clause. -/
def productQuery (category : Option Str) (p : Product) : Bool :=
  p.active && categoryCond category p

/-- The sort key picked by `list_products`: `price_asc` sorts by price
ascending, `price_desc` by price descending, anything else by `created_at`
descending. -/
def productSortLe (sort : Str) (a b : Product) : Bool :=
  if sort = "price_asc".toList then decide (a.price ≤ b.price)
  else if sort = "price_desc".toList then decide (b.price ≤ a.price)
  else decide (b.created_at ≤ a.created_at)

/-- The response shape of `GET /api/products`. -/
structure ProductsPage where
  items : List Product
  total : Nat
  page : Nat
  limit : Nat
deriving DecidableEq

/-- Embedding of `GET /api/products`. The three `Option` parameters model
absent query parameters; FastAPI resolves them to the declared defaults
`sort="newest"`, `page=1`, `limit=12` before the handler body runs. The
handler filters by `productQuery`, sorts by `productSortLe`, counts the
matches before pagination, then skips `(page-1)*limit` documents and
applies `cursor.limit(limit)`; per the pymongo cursor semantics a limit of
0 means no limit, any other value takes at most that many documents. -/
def list_products (store : List Product) (category : Option Str)
    (sortOpt : Option Str) (pageOpt limitOpt : Option Nat) : ProductsPage :=
  let sort := sortOpt.getD ("newest".toList)
  let page := pageOpt.getD 1
  let limit := limitOpt.getD 12
  let matched := store.filter (productQuery category)
  let total := matched.length
  let skipped := (sortBy (productSortLe sort) matched).drop ((page - 1) * limit)
  let items := if limit = 0 then skipped else skipped.take limit
  ⟨items, total, page, limit⟩

/-- Embedding of `GET /api/products/{slug}`: `find_one({slug, active: true})`,
404 when nothing matches. -/
def get_product_by_slug (store : List Product) (slug : Str) :
    Except Nat Product :=
  match store.find? (fun p => decide (p.slug = slug) && p.active) with
  | none => .error 404
  | some p => .ok p

/-- Embedding of `GET /api/products/id/{pid}`: `none` models a path segment
that is not a well-formed ObjectId (400); otherwise `find_one({_id})` with
404 when absent — no `active` restriction on this path. -/
def get_product_by_id (store : List Product) (pid : Option Nat) :
    Except Nat Product :=
  match pid with
  | none => .error 400
  | some i =>
    match store.find? (fun p => decide (p.id = i)) with
    | none => .error 404
    | some p => .ok p

-- ---------------------- Orders ----------------------

/-- An order line, snapshotting the product at order time. -/
structure OrderItem where
  product_id : Str
  title : Str
  price : Int
  quantity : Int
  image : Option Str
deriving DecidableEq

/-- Customer contact block of an order. -/
structure CustomerInfo where
  name : Str
  email : Str
  phone : Option Str
  address : Str
deriving DecidableEq

/-- The `Literal` shipping methods of the schema. -/
inductive ShippingMethod where
  | standard
  | express
deriving DecidableEq

/-- The `Literal` order statuses of the schema. -/
inductive OrderStatus where
  | pending
  | shipped
  | delivered
  | cancelled
deriving DecidableEq

/-- The string stored in Mongo for each schema status literal. -/
def OrderStatus.toStr : OrderStatus → Str
  | .pending => "Pending".toList
  | .shipped => "Shipped".toList
  | .delivered => "Delivered".toList
  | .cancelled => "Cancelled".toList

/-- The request body of `POST /api/orders` (the pydantic `Order` model).
`status := none` models a body without a status field, which pydantic
defaults to `Pending`; `some st` models a caller-supplied literal.
Likewise `created_at` is optional and defaults to null. -/
structure Order where
  items : List OrderItem
  subtotal : Int
  shipping : Int
  total : Int
  customer : CustomerInfo
  shipping_method : ShippingMethod
  status : Option OrderStatus
  created_at : Option Int
deriving DecidableEq

/-- A document of the `order` collection: the dumped body plus the
store-assigned id, with `status` persisted as its string form (the PATCH
route can later overwrite it with an arbitrary string). -/
structure StoredOrder where
  id : Nat
  items : List OrderItem
  subtotal : Int
  shipping : Int
  total : Int
  customer : CustomerInfo
  shipping_method : ShippingMethod
  status : Str
  created_at : Int
deriving DecidableEq

/-- Embedding of `POST /api/orders`: dump the body, overwrite `created_at`
with the server clock, insert, and return the store-assigned id. -/
def create_order (now : Int) (newId : Nat) (orders : List StoredOrder)
    (body : Order) : Nat × List StoredOrder :=
  let doc : StoredOrder :=
    { id := newId
      items := body.items
      subtotal := body.subtotal
      shipping := body.shipping
      total := body.total
      customer := body.customer
      shipping_method := body.shipping_method
      status := (body.status.getD .pending).toStr
      created_at := now }
  (newId, orders ++ [doc])

-- ---------------------- Regex model for order search ------------------

/-- Embedding of Mongo `update_one({_id: oid}, {$set: {status}})` on the
`order` collection. -/
def setStatusFirst (orders : List StoredOrder) (oid : Nat) (st : Str) :
    List StoredOrder :=
  match orders with
  | [] => []
  | o :: rest =>
    if o.id = oid then { o with status := st } :: rest
    else o :: setStatusFirst rest oid st

/-- Embedding of `PATCH /api/admin/orders/{oid}/status`: the
`require_admin` dependency runs first; then a malformed id is a 400; then
the status string (unvalidated) is written onto the matching order. -/
def update_order_status (now : Int) (admins : List AdminUser)
    (orders : List StoredOrder) (authorization : Option Str)
    (oid : Option Nat) (newStatus : Str) : Except Nat (List StoredOrder) :=
  match require_admin now admins authorization with
  | .error e => .error e
  | .ok _ =>
    match oid with
    | none => .error 400
    | some i => .ok (setStatusFirst orders i newStatus)

-- ---------------------- Spec-side search semantics --------------------

/-- A concrete admin account used by witnesses. -/
def admA : AdminUser := ⟨0, "a@b".toList, "h".toList, some ⟨"tok".toList, 100⟩⟩

/-- A concrete admin account without a session, used by witnesses. -/
def admB : AdminUser := ⟨0, "a@b".toList, "h".toList, none⟩

/-- A concrete stand-in for the external digest, used by witnesses. -/
def Hc : Str → Str := fun _ => "h".toList

/-- The store after a first concrete login (token `t1` issued at time 0). -/
def store1c : List AdminUser :=
  [⟨0, "a@b".toList, "h".toList, some ⟨"t1".toList, 28800⟩⟩]

/-- The store after a second concrete login (token `t2` issued at time 10). -/
def store2c : List AdminUser :=
  [⟨0, "a@b".toList, "h".toList, some ⟨"t2".toList, 28810⟩⟩]

/-- A concrete active product in category `mugs`, used by C4. -/
def Pmug : Product :=
  ⟨1, "Mug".toList, "mug".toList, none, none, 5, none, "mugs".toList, 3,
    none, none, [], true, 10⟩

/-- A concrete product with id, price and creation time `n`, used by C6. -/
def prodN (n : Nat) : Product :=
  ⟨n, [], [], none, none, Int.ofNat n, none, "mugs".toList, 0, none, none,
    [], true, Int.ofNat n⟩

/-- Twelve matching products, used by C6. -/
def store12 : List Product := (List.range 12).map (fun n => prodN (n + 1))

/-- A concrete order body that supplies `status: Shipped` and a caller
`created_at` of 999. -/
def OrderShipped : Order :=
  ⟨[], 0, 0, 0, ⟨"n".toList, "e".toList, none, "a".toList⟩, .standard,
    some .shipped, some 999⟩

/-- A concrete inactive product, used by C9. -/
def Qinact : Product :=
  ⟨5, "Q".toList, "q".toList, none, none, 1, none, "c".toList, 0, none,
    none, [], false, 0⟩

/-- Two concrete categories, one inactive, used by C10. -/
def CatA : Category := ⟨1, "art".toList, "art".toList, none, false, 0⟩

/-- A second concrete category, active, used by C10. -/
def CatB : Category := ⟨2, "mugs".toList, "mugs".toList, none, true, 0⟩

-- ---------------------- Generic lemmas about the model ----------------

theorem perm_sortedInsert (le : α → α → Bool) (a : α) (l : List α) :
    (sortedInsert le a l).Perm (a :: l) := by
  induction l with
  | nil => exact List.Perm.refl _
  | cons b bs ih =>
    by_cases h : le a b = true
    · simp [sortedInsert, h]
    · simp only [sortedInsert, h]
      rw [if_neg (by simp [h])]
      exact ((ih.cons b).trans (List.Perm.swap a b bs))

theorem perm_sortBy (le : α → α → Bool) (l : List α) :
    (sortBy le l).Perm l := by
  induction l with
  | nil => exact List.Perm.refl _
  | cons a as ih =>
    exact (perm_sortedInsert le a (sortBy le as)).trans (ih.cons a)

theorem mem_sortBy {le : α → α → Bool} {l : List α} {x : α} :
    x ∈ sortBy le l ↔ x ∈ l :=
  (perm_sortBy le l).mem_iff

theorem pairwise_sortedInsert (le : α → α → Bool)
    (htrans : ∀ a b c, le a b = true → le b c = true → le a c = true)
    (htotal : ∀ a b, le a b = true ∨ le b a = true)
    (a : α) (l : List α) (hl : l.Pairwise (fun x y => le x y = true)) :
    (sortedInsert le a l).Pairwise (fun x y => le x y = true) := by
  induction l with
  | nil => simp [sortedInsert]
  | cons b bs ih =>
    rcases List.pairwise_cons.mp hl with ⟨hb, hbs⟩
    by_cases h : le a b = true
    · simp only [sortedInsert, if_pos h]
      refine List.pairwise_cons.mpr ⟨?_, hl⟩
      intro x hx
      rcases List.mem_cons.mp hx with rfl | hx
      · exact h
      · exact htrans a b x h (hb x hx)
    · simp only [sortedInsert, if_neg h]
      refine List.pairwise_cons.mpr ⟨?_, ih hbs⟩
      intro x hx
      rcases List.mem_cons.mp ((perm_sortedInsert le a bs).mem_iff.mp hx) with rfl | hx
      · cases (htotal x b) with
        | inl hab => exact absurd hab h
        | inr hba => exact hba
      · exact hb x hx

theorem pairwise_sortBy (le : α → α → Bool)
    (htrans : ∀ a b c, le a b = true → le b c = true → le a c = true)
    (htotal : ∀ a b, le a b = true ∨ le b a = true)
    (l : List α) :
    (sortBy le l).Pairwise (fun x y => le x y = true) := by
  induction l with
  | nil => simp [sortBy]
  | cons a as ih => exact pairwise_sortedInsert le htrans htotal a _ ih

theorem pairwise_take_drop_sortBy (le : α → α → Bool)
    (htrans : ∀ a b c, le a b = true → le b c = true → le a c = true)
    (htotal : ∀ a b, le a b = true ∨ le b a = true)
    (l : List α) (n m : Nat) :
    (((sortBy le l).drop n).take m).Pairwise (fun x y => le x y = true) :=
  List.Pairwise.sublist ((List.take_sublist _ _).trans (List.drop_sublist _ _))
    (pairwise_sortBy le htrans htotal l)

theorem mem_take_drop {l : List α} {n m : Nat} {x : α}
    (hx : x ∈ (l.drop n).take m) : x ∈ l :=
  ((List.take_sublist _ _).trans (List.drop_sublist _ _)).mem hx

theorem find?_eq_some_of_unique {p : α → Bool} {l : List α} {a : α}
    (ha : a ∈ l) (hpa : p a = true) (huniq : ∀ b ∈ l, p b = true → b = a) :
    l.find? p = some a := by
  induction l with
  | nil => cases ha
  | cons h t ih =>
    by_cases hp : p h = true
    · have he : h = a := huniq h (List.mem_cons_self h t) hp
      rw [List.find?_cons_of_pos _ hp, he]
    · have hne : a ≠ h := fun e => hp (e ▸ hpa)
      have hat : a ∈ t := by
        rcases List.mem_cons.mp ha with e | hat
        · exact absurd e hne
        · exact hat
      rw [List.find?_cons_of_neg _ hp]
      exact ih hat (fun b hb hpb => huniq b (List.mem_cons_of_mem h hb) hpb)

theorem eq_of_pairwise_key {β : Type} (f : α → β) {l : List α} {a b : α}
    (h : l.Pairwise (fun x y => f x ≠ f y))
    (ha : a ∈ l) (hb : b ∈ l) (hf : f a = f b) : a = b := by
  induction l with
  | nil => cases ha
  | cons x xs ih =>
    rcases List.pairwise_cons.mp h with ⟨hx, hxs⟩
    rcases List.mem_cons.mp ha with ha1 | ha2
    · rcases List.mem_cons.mp hb with hb1 | hb2
      · exact ha1.trans hb1.symm
      · subst ha1
        exact absurd hf (hx b hb2)
    · rcases List.mem_cons.mp hb with hb1 | hb2
      · subst hb1
        exact absurd hf.symm (hx a ha2)
      · exact ih hxs ha2 hb2

theorem setTokenFirst_eq_map {store : List AdminUser} (aid : Nat)
    (ti : TokenInfo) (h : store.Pairwise (fun x y => x.id ≠ y.id)) :
    setTokenFirst store aid ti =
      store.map (fun b => if b.id = aid then { b with current_token := some ti } else b) := by
  induction store with
  | nil => rfl
  | cons a rest ih =>
    rcases List.pairwise_cons.mp h with ⟨ha, hrest⟩
    by_cases hid : a.id = aid
    · simp only [setTokenFirst, if_pos hid, List.map_cons, List.cons.injEq, true_and]
      rw [List.map_congr_left (fun b hb => if_neg (fun e => ha b hb (hid.trans e.symm)))]
      simp
    · simp only [setTokenFirst, if_neg hid, List.map_cons]
      exact congrArg _ (ih hrest)

-- ---------------------- Auth lemmas ----------------------

theorem tokenPred_eq_false {tok : Str} {a : AdminUser}
    (h : ∀ t, a.current_token = some t → t.token ≠ tok) :
    tokenPred tok a = false := by
  cases hct : a.current_token with
  | none => simp [tokenPred, hct]
  | some t => simp [tokenPred, hct, h t hct]

theorem pairwise_ids_map (store : List AdminUser) (f : AdminUser → AdminUser)
    (hid : ∀ b, (f b).id = b.id)
    (h : store.Pairwise (fun x y => x.id ≠ y.id)) :
    (store.map f).Pairwise (fun x y => x.id ≠ y.id) :=
  List.Pairwise.map f (fun a b hab => by rw [hid, hid]; exact hab) h

/-- Structure of a successful login: the account was found by email, its
digest matched, the returned token is the fresh one with expiry
`now + 8` hours, and the resulting collection is the input with exactly
that account carrying the new token. -/
theorem login_shape (H : Str → Str) (now : Int) (tok : Str)
    (store : List AdminUser) (email pw : Str) (ti : TokenInfo)
    (st1 : List AdminUser)
    (hids : store.Pairwise (fun x y => x.id ≠ y.id))
    (h : admin_login H now tok store email pw = .ok (ti, st1)) :
    ∃ A, store.find? (fun a => decide (a.email = email)) = some A ∧
      A.password = H pw ∧ A.email = email ∧ A ∈ store ∧
      ti = ⟨tok, now + 8 * 3600⟩ ∧
      st1 = store.map (fun b =>
        if b.id = A.id then { b with current_token := some ⟨tok, now + 8 * 3600⟩ }
        else b) := by
  unfold admin_login at h
  cases hf : store.find? (fun a => decide (a.email = email)) with
  | none =>
    simp only [hf] at h
    exact Except.noConfusion h
  | some A =>
    simp only [hf] at h
    by_cases hpw : A.password = H pw
    · rw [if_pos hpw] at h
      simp only [Except.ok.injEq, Prod.mk.injEq] at h
      refine ⟨A, rfl, hpw, ?_, List.mem_of_find?_eq_some hf, h.1.symm, ?_⟩
      · simpa using List.find?_some hf
      · exact h.2.symm.trans (setTokenFirst_eq_map A.id _ hids)
    · rw [if_neg hpw] at h
      simp at h

-- ---------------------- C1 ----------------------

/-- C1: for every admin-gated request, authentication fails with 401 when
the Authorization header is missing or does not start with `Bearer `, when
no admin account stores the presented token, or when the current time is
past the stored expiry; otherwise the matched admin account is returned;
and the gate runs before the handler (shown on the order-status handler:
a gate failure is returned unchanged, no business logic runs). -/
theorem require_admin_spec (now : Int) (store : List AdminUser)
    (auth : Option Str) :
    (auth = none → require_admin now store auth = .error 401) ∧
    (∀ s, auth = some s → strStartsWith s ("Bearer ".toList) = false →
      require_admin now store auth = .error 401) ∧
    (∀ s, auth = some s →
      (∀ a ∈ store, ∀ t, a.current_token = some t →
        t.token ≠ afterFirstSpace s) →
      require_admin now store auth = .error 401) ∧
    (∀ s a t, auth = some s →
      store.find? (tokenPred (afterFirstSpace s)) = some a →
      a.current_token = some t → now > t.expires_at →
      require_admin now store auth = .error 401) ∧
    (∀ s a t, auth = some s → strStartsWith s ("Bearer ".toList) = true →
      afterFirstSpace s ≠ [] →
      store.find? (tokenPred (afterFirstSpace s)) = some a →
      a.current_token = some t → now ≤ t.expires_at →
      require_admin now store auth = .ok a) ∧
    (∀ orders oid ns e, require_admin now store auth = .error e →
      update_order_status now store orders auth oid ns = .error e) := by
  refine ⟨?_, ?_, ?_, ?_, ?_, ?_⟩
  · rintro rfl; rfl
  · rintro s rfl hsw
    simp only [require_admin]
    rw [if_neg (by simpa using hsw)]
  · rintro s rfl hnone
    simp only [require_admin]
    by_cases hsw : strStartsWith s ("Bearer ".toList) = true
    · rw [if_pos hsw]
      have hg : get_admin_by_token now store (afterFirstSpace s) = none := by
        unfold get_admin_by_token
        by_cases he : afterFirstSpace s = []
        · rw [if_pos he]
        · have hfind : store.find? (tokenPred (afterFirstSpace s)) = none :=
            List.find?_eq_none.mpr (fun a ha => by
              simp [tokenPred_eq_false (fun t ht => hnone a ha t ht)])
          rw [if_neg he, hfind]
      rw [hg]
    · rw [if_neg hsw]
  · rintro s a t rfl hfind hct hexp
    simp only [require_admin]
    by_cases hsw : strStartsWith s ("Bearer ".toList) = true
    · rw [if_pos hsw]
      have hg : get_admin_by_token now store (afterFirstSpace s) = none := by
        unfold get_admin_by_token
        by_cases he : afterFirstSpace s = []
        · rw [if_pos he]
        · rw [if_neg he]
          simp only [hfind, hct]
          rw [if_pos hexp]
      rw [hg]
    · rw [if_neg hsw]
  · rintro s a t rfl hsw hne hfind hct hnow
    simp only [require_admin, if_pos hsw]
    have hg : get_admin_by_token now store (afterFirstSpace s) = some a := by
      unfold get_admin_by_token
      rw [if_neg hne]
      simp only [hfind, hct]
      rw [if_neg (not_lt.mpr hnow)]
    rw [hg]
  · intro orders oid ns e herr
    simp only [update_order_status, herr]

/-- Witness for C1: with a stored token `tok` expiring at time 100, at
time 50 the header `Bearer tok` authenticates to the stored account, a
missing header is a 401, and the gated status handler propagates that
401 without touching the orders. -/
theorem require_admin_spec_witness :
    require_admin 50 [admA] (some ("Bearer tok".toList)) = .ok admA ∧
    require_admin 50 [admA] none = .error 401 ∧
    update_order_status 50 [admA] [] none none ("X".toList) = .error 401 := by
  refine ⟨?_, ?_, ?_⟩
  · exact (require_admin_spec 50 [admA] (some ("Bearer tok".toList))).2.2.2.2.1
      ("Bearer tok".toList) admA ⟨"tok".toList, 100⟩ rfl (by decide) (by decide)
      (by decide) (by decide) (by decide)
  · exact (require_admin_spec 50 [admA] none).1 rfl
  · exact (require_admin_spec 50 [admA] none).2.2.2.2.2 [] none ("X".toList) 401
      ((require_admin_spec 50 [admA] none).1 rfl)

-- ---------------------- C2 ----------------------

/-- C2: login fails with 401 when no account has the email or when the
stored digest differs from the hash of the supplied password; on success
it returns the fresh token with expiry `now + 8` hours and persists exactly
that pair onto the matched account, replacing any prior token. -/
theorem admin_login_spec (H : Str → Str) (now : Int) (tok : Str)
    (store : List AdminUser) (email pw : Str) :
    ((∀ a ∈ store, a.email ≠ email) →
      admin_login H now tok store email pw = .error 401) ∧
    (∀ admin, store.find? (fun a => decide (a.email = email)) = some admin →
      admin.password ≠ H pw →
      admin_login H now tok store email pw = .error 401) ∧
    (∀ admin, store.find? (fun a => decide (a.email = email)) = some admin →
      admin.password = H pw →
      admin_login H now tok store email pw =
        .ok (⟨tok, now + 8 * 3600⟩,
          setTokenFirst store admin.id ⟨tok, now + 8 * 3600⟩) ∧
      (store.Pairwise (fun x y => x.id ≠ y.id) →
        ∃ a2, a2 ∈ setTokenFirst store admin.id ⟨tok, now + 8 * 3600⟩ ∧
          a2.email = admin.email ∧
          a2.current_token = some ⟨tok, now + 8 * 3600⟩)) := by
  refine ⟨?_, ?_, ?_⟩
  · intro hnone
    have hf : store.find? (fun a => decide (a.email = email)) = none :=
      List.find?_eq_none.mpr (fun a ha => by simp [hnone a ha])
    simp [admin_login, hf]
  · intro admin hfind hpw
    simp [admin_login, hfind, hpw]
  · intro admin hfind hpw
    constructor
    · simp [admin_login, hfind, hpw]
    · intro hids
      refine ⟨{ admin with current_token := some ⟨tok, now + 8 * 3600⟩ }, ?_, rfl, rfl⟩
      rw [setTokenFirst_eq_map admin.id ⟨tok, now + 8 * 3600⟩ hids]
      have hmem : admin ∈ store := List.mem_of_find?_eq_some hfind
      have hm := List.mem_map_of_mem
        (fun b => if b.id = admin.id
          then { b with current_token := some ⟨tok, now + 8 * 3600⟩ } else b) hmem
      simpa using hm

/-- Witness for C2: a successful login on a one-account store returns the
fresh token with expiry `0 + 8` hours and the updated store, and login on
an empty store is a 401. -/
theorem admin_login_spec_witness :
    admin_login Hc 0 ("t".toList) [admB] ("a@b".toList) ("pw".toList) =
      .ok (⟨"t".toList, 0 + 8 * 3600⟩,
        setTokenFirst [admB] admB.id ⟨"t".toList, 0 + 8 * 3600⟩) ∧
    admin_login Hc 0 ("t".toList) [] ("a@b".toList) ("pw".toList) =
      .error 401 := by
  constructor
  · exact ((admin_login_spec Hc 0 ("t".toList) [admB] ("a@b".toList)
      ("pw".toList)).2.2 admB (by decide) (by decide)).1
  · exact (admin_login_spec Hc 0 ("t".toList) [] ("a@b".toList)
      ("pw".toList)).1 (by simp)

-- ---------------------- C3 ----------------------

/-- C3: at most one valid session per account. After a second successful
login on the same account the token issued by the first login no longer
authenticates, while the newest token authenticates (until its expiry) to
an account with that email holding exactly the new token. The freshness
hypotheses say the two issued tokens are new and distinct, as random
high-entropy tokens are. -/
theorem second_login_invalidates_first
    (H : Str → Str) (now1 now2 now3 : Int) (t1 t2 email pw : Str)
    (store store1 store2 : List AdminUser) (ti1 ti2 : TokenInfo)
    (hids : store.Pairwise (fun x y => x.id ≠ y.id))
    (hfresh1 : ∀ a ∈ store, ∀ t, a.current_token = some t → t.token ≠ t1)
    (hfresh2 : ∀ a ∈ store, ∀ t, a.current_token = some t → t.token ≠ t2)
    (hne : t1 ≠ t2) (ht2 : t2 ≠ [])
    (h1 : admin_login H now1 t1 store email pw = .ok (ti1, store1))
    (h2 : admin_login H now2 t2 store1 email pw = .ok (ti2, store2))
    (hnow : now3 ≤ ti2.expires_at) :
    get_admin_by_token now3 store2 t1 = none ∧
    ∃ a, get_admin_by_token now3 store2 t2 = some a ∧ a.email = email ∧
      a.current_token = some ⟨t2, ti2.expires_at⟩ := by
  obtain ⟨A, hfA, hpwA, hemA, hmemA, hti1, hst1⟩ :=
    login_shape H now1 t1 store email pw ti1 store1 hids h1
  have hids1 : store1.Pairwise (fun x y => x.id ≠ y.id) := by
    rw [hst1]
    exact pairwise_ids_map store _
      (fun b => by by_cases hb : b.id = A.id <;> simp [hb]) hids
  obtain ⟨A2, hfA2, hpwA2, hemA2, hmemA2, hti2, hst2⟩ :=
    login_shape H now2 t2 store1 email pw ti2 store2 hids1 h2
  subst hti2
  have hfind1 : store1.find? (fun a => decide (a.email = email)) =
      some { A with current_token := some ⟨t1, now1 + 8 * 3600⟩ } := by
    rw [hst1, List.find?_map]
    have hpr : ((fun a : AdminUser => decide (a.email = email)) ∘
        (fun b => if b.id = A.id
          then { b with current_token := some ⟨t1, now1 + 8 * 3600⟩ } else b))
        = (fun a : AdminUser => decide (a.email = email)) := by
      funext b
      by_cases hb : b.id = A.id <;> simp [Function.comp, hb]
    rw [hpr, hfA]
    simp
  have hA2 : A2 = { A with current_token := some ⟨t1, now1 + 8 * 3600⟩ } :=
    Option.some.inj (hfA2.symm.trans hfind1)
  have hid2 : A2.id = A.id := by rw [hA2]
  have huniqkey : ∀ b ∈ store, b.id = A.id → b = A := fun b hb hkey =>
    eq_of_pairwise_key (fun x => x.id) hids hb hmemA hkey
  set g : AdminUser → AdminUser := fun b =>
    if b.id = A.id then { b with current_token := some ⟨t2, now2 + 8 * 3600⟩ }
    else b with hgdef
  have hst2' : store2 = store.map g := by
    rw [hst2, hst1, List.map_map]
    apply List.map_congr_left
    intro b _
    by_cases hbA : b.id = A.id
    · simp [hgdef, Function.comp, hbA, hid2]
    · simp [hgdef, Function.comp, hbA, hid2]
  constructor
  · unfold get_admin_by_token
    by_cases h0 : t1 = []
    · rw [if_pos h0]
    · rw [if_neg h0]
      have hnonef : store2.find? (tokenPred t1) = none := by
        apply List.find?_eq_none.mpr
        intro b hb
        rw [hst2'] at hb
        obtain ⟨c, hc, rfl⟩ := List.mem_map.mp hb
        by_cases hcA : c.id = A.id
        · have hcEq : c = A := huniqkey c hc hcA
          subst hcEq
          simp [hgdef, hcA, tokenPred, Ne.symm hne]
        · have hgc : g c = c := by simp [hgdef, hcA]
          rw [hgc]
          cases hct : c.current_token with
          | none => simp [tokenPred, hct]
          | some t => simp [tokenPred, hct, hfresh1 c hc t hct]
      rw [hnonef]
  · refine ⟨g A, ?_, ?_, ?_⟩
    · unfold get_admin_by_token
      rw [if_neg ht2]
      have hfind2 : store2.find? (tokenPred t2) = some (g A) := by
        apply find?_eq_some_of_unique
        · rw [hst2']
          exact List.mem_map_of_mem g hmemA
        · simp [hgdef, tokenPred]
        · intro b hb hpb
          rw [hst2'] at hb
          obtain ⟨c, hc, rfl⟩ := List.mem_map.mp hb
          by_cases hcA : c.id = A.id
          · rw [huniqkey c hc hcA]
          · have hgc : g c = c := by simp [hgdef, hcA]
            rw [hgc] at hpb ⊢
            exfalso
            cases hct : c.current_token with
            | none => simp [tokenPred, hct] at hpb
            | some t =>
              simp [tokenPred, hct] at hpb
              exact hfresh2 c hc t hct hpb
      rw [hfind2]
      have hctA : (g A).current_token = some ⟨t2, now2 + 8 * 3600⟩ := by
        simp [hgdef]
      simp only [hctA]
      rw [if_neg (not_lt.mpr hnow)]
    · simp [hgdef, hemA]
    · simp [hgdef]

/-- Witness for C3: after logins issuing `t1` (time 0) and then `t2`
(time 10) on the same account, at time 20 the old token fails and the new
one authenticates. -/
theorem second_login_invalidates_first_witness :
    get_admin_by_token 20 store2c ("t1".toList) = none ∧
    get_admin_by_token 20 store2c ("t2".toList) =
      some ⟨0, "a@b".toList, "h".toList, some ⟨"t2".toList, 28810⟩⟩ := by
  have hfresh : ∀ a ∈ [admB], ∀ t : TokenInfo,
      a.current_token = some t → ∀ {s : Str}, t.token ≠ s := by
    intro a ha t ht
    rw [List.mem_singleton] at ha
    subst ha
    exact Option.noConfusion ht
  have h := second_login_invalidates_first Hc 0 10 20 ("t1".toList)
    ("t2".toList) ("a@b".toList) ("pw".toList) [admB] store1c store2c
    ⟨"t1".toList, 28800⟩ ⟨"t2".toList, 28810⟩
    (by simp)
    (fun a ha t ht => hfresh a ha t ht)
    (fun a ha t ht => hfresh a ha t ht)
    (by decide) (by decide) (by rfl) (by rfl) (by decide)
  exact ⟨h.1, by decide⟩

-- ---------------------- C4 ----------------------

/-- C4 (amended): every item returned by the public product listing is
active, and when a non-empty category filter other than the sentinel `All`
is supplied, every returned item has exactly that category. -/
theorem list_products_active_category (store : List Product)
    (category sortOpt : Option Str) (pageOpt limitOpt : Option Nat)
    (p : Product)
    (hp : p ∈ (list_products store category sortOpt pageOpt limitOpt).items) :
    p.active = true ∧
    ∀ c, category = some c → c ≠ [] → c ≠ "All".toList → p.category = c := by
  have hsorted : p ∈ sortBy (productSortLe (sortOpt.getD ("newest".toList)))
      (store.filter (productQuery category)) := by
    simp only [list_products] at hp
    by_cases hl : limitOpt.getD 12 = 0
    · rw [if_pos hl] at hp
      exact (List.drop_sublist _ _).mem hp
    · rw [if_neg hl] at hp
      exact mem_take_drop hp
  have hmem : p ∈ store.filter (productQuery category) :=
    mem_sortBy.mp hsorted
  have hq : productQuery category p = true := (List.mem_filter.mp hmem).2
  unfold productQuery at hq
  rw [Bool.and_eq_true] at hq
  refine ⟨hq.1, ?_⟩
  intro c hc hne hnall
  subst hc
  have hcat := hq.2
  simp only [categoryCond] at hcat
  rw [if_neg (not_or.mpr ⟨hne, hnall⟩)] at hcat
  exact of_decide_eq_true hcat

/-- Counterexample for C4 as stated: the empty string is a supplied
category filter different from `All`, yet the listing still returns a
product whose category is not the empty string, because the handler treats
a falsy (empty) category exactly like an absent one. -/
theorem list_products_empty_category_counterexample :
    (some ([] : Str)) ≠ some ("All".toList) ∧
    Pmug ∈ (list_products [Pmug] (some []) none none none).items ∧
    Pmug.category ≠ ([] : Str) := by decide

/-- Witness for C4 (amended): with filter `mugs` the returned item is
active and has category `mugs`. -/
theorem list_products_active_category_witness :
    Pmug.active = true ∧ Pmug.category = "mugs".toList := by
  have h := list_products_active_category [Pmug] (some ("mugs".toList))
    none none none Pmug (by decide)
  exact ⟨h.1, h.2 ("mugs".toList) rfl (by decide) (by decide)⟩

-- ---------------------- C5 ----------------------

/-- C6 (amended): pagination of the product listing. For a non-zero limit
the page holds at most `limit` items and item `i` of the page is element
`(page-1)*limit + i` of the sorted filtered sequence; a limit of 0 means
no limit (pymongo cursor semantics) and returns every matched item after
the skip; the reported total counts the filtered documents before skip and
limit; absent parameters behave as `page = 1`, `limit = 12`. -/
theorem list_products_pagination (store : List Product)
    (category sortOpt : Option Str) (page limit : Nat) (hpage : 1 ≤ page) :
    (limit ≠ 0 →
      (list_products store category sortOpt (some page)
        (some limit)).items.length ≤ limit) ∧
    (list_products store category sortOpt (some page) (some limit)).total =
      (store.filter (productQuery category)).length ∧
    (∀ i, limit ≠ 0 →
      (list_products store category sortOpt (some page) (some limit)).items[i]? =
      if i < limit then
        (sortBy (productSortLe (sortOpt.getD ("newest".toList)))
          (store.filter (productQuery category)))[(page - 1) * limit + i]?
      else none) ∧
    (limit = 0 →
      (list_products store category sortOpt (some page) (some limit)).items =
        (sortBy (productSortLe (sortOpt.getD ("newest".toList)))
          (store.filter (productQuery category))).drop ((page - 1) * limit)) ∧
    list_products store category sortOpt none none =
      list_products store category sortOpt (some 1) (some 12) := by
  refine ⟨?_, rfl, ?_, ?_, rfl⟩
  · intro hl
    simp only [list_products, Option.getD]
    rw [if_neg hl]
    exact List.length_take_le _ _
  · intro i hl
    simp only [list_products, Option.getD]
    rw [if_neg hl, List.getElem?_take]
    by_cases hi : i < limit
    · rw [if_pos hi, if_pos hi, List.getElem?_drop]
    · rw [if_neg hi, if_neg hi]
  · intro hl
    simp only [list_products, Option.getD]
    rw [if_pos hl]

/-- Counterexample for C6 as stated: with `limit = 0` pymongo applies no
limit, so both matched products come back and the page is not at most 0
items. -/
theorem list_products_limit_zero_counterexample :
    (list_products [prodN 1, prodN 2] none none (some 1)
      (some 0)).items.length = 2 ∧
    ¬ ((list_products [prodN 1, prodN 2] none none (some 1)
      (some 0)).items.length ≤ 0) := by decide

/-- Witness for C6, the example of the spec: page 2 with limit 5 on 12
matching items returns the five items ranked 6 to 10 by the default
newest-first order, and total 12. -/
theorem list_products_pagination_witness :
    (1 : Nat) ≤ 2 ∧
    (list_products store12 none none (some 2) (some 5)).items.length ≤ 5 ∧
    (list_products store12 none none (some 2) (some 5)).total = 12 ∧
    (list_products store12 none none (some 2) (some 5)).items =
      [prodN 7, prodN 6, prodN 5, prodN 4, prodN 3] := by
  have h := list_products_pagination store12 none none 2 5 (by decide)
  exact ⟨by decide, h.1 (by decide), h.2.1.trans (by decide), by decide⟩

-- ---------------------- C7 ----------------------

/-- The page items are pairwise ordered by the resolved sort key. -/
theorem pairwise_items (store : List Product) (category : Option Str)
    (sortOpt : Option Str) (pageOpt limitOpt : Option Nat)
    (le : Product → Product → Bool)
    (hres : productSortLe (sortOpt.getD ("newest".toList)) = le)
    (htrans : ∀ a b c, le a b = true → le b c = true → le a c = true)
    (htotal : ∀ a b, le a b = true ∨ le b a = true) :
    (list_products store category sortOpt pageOpt limitOpt).items.Pairwise
      (fun a b => le a b = true) := by
  simp only [list_products]
  rw [hres]
  by_cases hl : limitOpt.getD 12 = 0
  · rw [if_pos hl]
    exact List.Pairwise.sublist (List.drop_sublist _ _)
      (pairwise_sortBy le htrans htotal _)
  · rw [if_neg hl]
    exact pairwise_take_drop_sortBy le htrans htotal _ _ _

/-- C7: `sort=price_asc` lists prices in non-decreasing order,
`sort=price_desc` in non-increasing order, and every other sort value,
including an absent one, lists creation times in non-increasing order. -/
theorem list_products_sorted (store : List Product) (category : Option Str)
    (pageOpt limitOpt : Option Nat) :
    (list_products store category (some ("price_asc".toList)) pageOpt
      limitOpt).items.Pairwise (fun a b => a.price ≤ b.price) ∧
    (list_products store category (some ("price_desc".toList)) pageOpt
      limitOpt).items.Pairwise (fun a b => b.price ≤ a.price) ∧
    (∀ sortOpt, sortOpt ≠ some ("price_asc".toList) →
      sortOpt ≠ some ("price_desc".toList) →
      (list_products store category sortOpt pageOpt
        limitOpt).items.Pairwise (fun a b => b.created_at ≤ a.created_at)) := by
  refine ⟨?_, ?_, ?_⟩
  · have hp := pairwise_items store category (some ("price_asc".toList))
      pageOpt limitOpt (fun a b => decide (a.price ≤ b.price))
      (by funext a b; simp [productSortLe])
      (fun a b c h1 h2 => by
        simp only [decide_eq_true_eq] at h1 h2 ⊢; omega)
      (fun a b => by simp only [decide_eq_true_eq]; omega)
    exact hp.imp (fun h => by simpa using h)
  · have hp := pairwise_items store category (some ("price_desc".toList))
      pageOpt limitOpt (fun a b => decide (b.price ≤ a.price))
      (by funext a b; simp [productSortLe])
      (fun a b c h1 h2 => by
        simp only [decide_eq_true_eq] at h1 h2 ⊢; omega)
      (fun a b => by simp only [decide_eq_true_eq]; omega)
    exact hp.imp (fun h => by simpa using h)
  · intro sortOpt hs1 hs2
    have hr1 : sortOpt.getD ("newest".toList) ≠ "price_asc".toList := by
      cases sortOpt with
      | none => decide
      | some x => exact fun hx => hs1 (by rw [Option.getD] at hx; rw [hx])
    have hr2 : sortOpt.getD ("newest".toList) ≠ "price_desc".toList := by
      cases sortOpt with
      | none => decide
      | some x => exact fun hx => hs2 (by rw [Option.getD] at hx; rw [hx])
    have hp := pairwise_items store category sortOpt pageOpt limitOpt
      (fun a b => decide (b.created_at ≤ a.created_at))
      (by
        funext a b
        simp only [productSortLe]
        rw [if_neg hr1, if_neg hr2])
      (fun a b c h1 h2 => by
        simp only [decide_eq_true_eq] at h1 h2 ⊢; omega)
      (fun a b => by simp only [decide_eq_true_eq]; omega)
    exact hp.imp (fun h => by simpa using h)

/-- Witness for C7: on the twelve-product store the price-ascending page
is sorted by price, and the default sort value is neither price key and
yields a newest-first page. -/
theorem list_products_sorted_witness :
    (list_products store12 none (some ("price_asc".toList)) none
      none).items.Pairwise (fun a b => a.price ≤ b.price) ∧
    (some ("newest".toList) : Option Str) ≠ some ("price_asc".toList) ∧
    (list_products store12 none (some ("newest".toList)) none
      none).items.Pairwise (fun a b => b.created_at ≤ a.created_at) := by
  refine ⟨(list_products_sorted store12 none none none).1, by decide, ?_⟩
  exact (list_products_sorted store12 none none none).2.2
    (some ("newest".toList)) (by decide) (by decide)

-- ---------------------- C8 ----------------------

/-- C8 (amended): an order created through the public route is appended
with the store-assigned id and `created_at` equal to the server clock,
overriding any caller value; its status is the schema default `Pending`
when the body omits a status and the caller-supplied literal otherwise;
the route returns the store-assigned id. -/
theorem create_order_spec (now : Int) (newId : Nat)
    (orders : List StoredOrder) (body : Order) :
    (create_order now newId orders body).1 = newId ∧
    ∃ doc, (create_order now newId orders body).2 = orders ++ [doc] ∧
      doc.id = newId ∧ doc.created_at = now ∧
      doc.status = (body.status.getD .pending).toStr ∧
      doc.items = body.items ∧ doc.customer = body.customer ∧
      doc.subtotal = body.subtotal ∧ doc.total = body.total :=
  ⟨rfl, ⟨_, rfl, rfl, rfl, rfl, rfl, rfl, rfl, rfl⟩⟩

/-- Counterexample for C8 as stated: a body carrying `status: Shipped` is
stored with status `Shipped`, not `Pending` (while, as claimed, the
caller-supplied `created_at` 999 is overridden by the server clock 1000). -/
theorem create_order_status_counterexample :
    ((create_order 1000 7 [] OrderShipped).2.map StoredOrder.status) =
      ["Shipped".toList] ∧
    "Shipped".toList ≠ "Pending".toList ∧
    ((create_order 1000 7 [] OrderShipped).2.map StoredOrder.created_at) =
      [1000] := by decide

-- ---------------------- C9 ----------------------

/-- C9: the slug fetch is a 404 exactly when no active product carries the
slug (so an inactive product is not served by slug), while the id fetch is
a 404 exactly when no product carries the id, active or not; a malformed
id is a 400. -/
theorem get_product_fetch_spec (store : List Product) (slug : Str)
    (i : Nat) :
    (get_product_by_slug store slug = .error 404 ↔
      ∀ p ∈ store, ¬(p.slug = slug ∧ p.active = true)) ∧
    (∀ p, get_product_by_slug store slug = .ok p →
      p ∈ store ∧ p.slug = slug ∧ p.active = true) ∧
    (get_product_by_id store (some i) = .error 404 ↔
      ∀ p ∈ store, p.id ≠ i) ∧
    (∀ p, get_product_by_id store (some i) = .ok p →
      p ∈ store ∧ p.id = i) ∧
    get_product_by_id store none = .error 400 := by
  have hpred : ∀ p : Product,
      (decide (p.slug = slug) && p.active) = true ↔
        (p.slug = slug ∧ p.active = true) := fun p => by simp
  refine ⟨?_, ?_, ?_, ?_, rfl⟩
  · constructor
    · intro h404 p hp hcond
      unfold get_product_by_slug at h404
      cases hf : store.find? (fun p => decide (p.slug = slug) && p.active) with
      | some q =>
        simp only [hf] at h404
        exact Except.noConfusion h404
      | none =>
        exact List.find?_eq_none.mp hf p hp ((hpred p).mpr hcond)
    · intro hall
      have hf : store.find? (fun p => decide (p.slug = slug) && p.active) = none :=
        List.find?_eq_none.mpr (fun p hp hpp => hall p hp ((hpred p).mp hpp))
      unfold get_product_by_slug
      simp only [hf]
  · intro p hok
    unfold get_product_by_slug at hok
    cases hf : store.find? (fun p => decide (p.slug = slug) && p.active) with
    | none =>
      simp only [hf] at hok
      exact Except.noConfusion hok
    | some q =>
      simp only [hf] at hok
      have hqp : q = p := by injection hok
      subst hqp
      have hq := List.find?_some hf
      exact ⟨List.mem_of_find?_eq_some hf, (hpred _).mp hq⟩
  · constructor
    · intro h404 p hp hid
      unfold get_product_by_id at h404
      cases hf : store.find? (fun p => decide (p.id = i)) with
      | some q =>
        simp only [hf] at h404
        exact Except.noConfusion h404
      | none =>
        exact List.find?_eq_none.mp hf p hp (by simp [hid])
    · intro hall
      have hf : store.find? (fun p => decide (p.id = i)) = none :=
        List.find?_eq_none.mpr (fun p hp hpp => hall p hp (by simpa using hpp))
      unfold get_product_by_id
      simp only [hf]
  · intro p hok
    unfold get_product_by_id at hok
    cases hf : store.find? (fun p => decide (p.id = i)) with
    | none =>
      simp only [hf] at hok
      exact Except.noConfusion hok
    | some q =>
      simp only [hf] at hok
      have hqp : q = p := by injection hok
      subst hqp
      exact ⟨List.mem_of_find?_eq_some hf, by simpa using List.find?_some hf⟩

/-- Witness for C9: the inactive product is a 404 by slug, yet the id
fetch returns it (membership and id extracted through the theorem). -/
theorem get_product_fetch_spec_witness :
    get_product_by_slug [Qinact] ("q".toList) = .error 404 ∧
    Qinact ∈ [Qinact] ∧ Qinact.id = 5 := by
  have h := (get_product_fetch_spec [Qinact] ("q".toList) 5).2.2.2.1
    Qinact (by rfl)
  exact ⟨(get_product_fetch_spec [Qinact] ("q".toList) 5).1.mpr (by decide),
    h.1, h.2⟩

-- ---------------------- C10 ----------------------

theorem strLe_total (s t : Str) : strLe s t = true ∨ strLe t s = true := by
  induction s generalizing t with
  | nil => left; rfl
  | cons a as ih =>
    cases t with
    | nil => right; rfl
    | cons b bs =>
      by_cases h1 : a.toNat < b.toNat
      · left
        simp [strLe, h1]
      · by_cases h2 : b.toNat < a.toNat
        · right
          simp [strLe, h2]
        · rcases ih bs with h | h
          · left
            simp [strLe, h1, h2, h]
          · right
            simp [strLe, h1, h2, h]

theorem strLe_trans (s t u : Str) (h1 : strLe s t = true)
    (h2 : strLe t u = true) : strLe s u = true := by
  induction s generalizing t u with
  | nil => rfl
  | cons a as ih =>
    cases t with
    | nil => simp [strLe] at h1
    | cons b bs =>
      cases u with
      | nil => simp [strLe] at h2
      | cons c cs =>
        by_cases hab : a.toNat < b.toNat
        · by_cases hbc : b.toNat < c.toNat
          · have hac : a.toNat < c.toNat := Nat.lt_trans hab hbc
            simp [strLe, hac]
          · by_cases hcb : c.toNat < b.toNat
            · simp [strLe, hbc, hcb] at h2
            · have hac : a.toNat < c.toNat := by omega
              simp [strLe, hac]
        · by_cases hba : b.toNat < a.toNat
          · simp [strLe, hab, hba] at h1
          · have h1' : strLe as bs = true := by
              simpa [strLe, hab, hba] using h1
            by_cases hbc : b.toNat < c.toNat
            · have hac : a.toNat < c.toNat := by omega
              simp [strLe, hac]
            · by_cases hcb : c.toNat < b.toNat
              · simp [strLe, hbc, hcb] at h2
              · have h2' : strLe bs cs = true := by
                  simpa [strLe, hbc, hcb] using h2
                have hnac : ¬ a.toNat < c.toNat := by omega
                have hnca : ¬ c.toNat < a.toNat := by omega
                simp [strLe, hnac, hnca, ih bs cs h1' h2']

/-- C10: supplying the falsy value `active = false` removes the filter
entirely, so the listing contains every stored category, inactive ones
included; the result is always sorted by name ascending; and whenever the
resolved parameter is `true` — the caller supplied `true` or supplied
nothing and got the default — the result is exactly the active
categories. -/
theorem list_categories_spec (store : List Category)
    (activeOpt : Option Bool) :
    (activeOpt = some false →
      (∀ c ∈ store, c ∈ list_categories store activeOpt) ∧
      (∀ c ∈ list_categories store activeOpt, c ∈ store)) ∧
    (list_categories store activeOpt).Pairwise
      (fun a b => strLe a.name b.name = true) ∧
    (activeOpt.getD true = true →
      (∀ c ∈ list_categories store activeOpt, c ∈ store ∧ c.active = true) ∧
      (∀ c ∈ store, c.active = true → c ∈ list_categories store activeOpt)) := by
  refine ⟨?_, ?_, ?_⟩
  · intro hfalse
    subst hfalse
    simp only [list_categories]
    rw [if_neg (by decide)]
    constructor
    · intro c hc
      rw [mem_sortBy, List.mem_filter]
      exact ⟨hc, rfl⟩
    · intro c hc
      exact (List.mem_filter.mp (mem_sortBy.mp hc)).1
  · simp only [list_categories]
    exact pairwise_sortBy _
      (fun (a b c : Category) => strLe_trans a.name b.name c.name)
      (fun (a b : Category) => strLe_total a.name b.name) _
  · intro htrue
    simp only [list_categories]
    rw [if_pos htrue]
    constructor
    · intro c hc
      exact List.mem_filter.mp (mem_sortBy.mp hc)
    · intro c hc hact
      rw [mem_sortBy, List.mem_filter]
      exact ⟨hc, hact⟩

/-- Witness for C10: with `active = false` both categories, the inactive
one included, are in the listing; the listing is name-sorted; and with the
parameter absent (the default) the active category is listed while the
restriction to active items holds. -/
theorem list_categories_spec_witness :
    CatA ∈ list_categories [CatB, CatA] (some false) ∧
    CatB ∈ list_categories [CatB, CatA] (some false) ∧
    (list_categories [CatB, CatA] (some true)).Pairwise
      (fun a b => strLe a.name b.name = true) ∧
    CatB ∈ list_categories [CatB, CatA] none := by
  have h := (list_categories_spec [CatB, CatA] (some false)).1 rfl
  refine ⟨h.1 CatA (by decide), h.1 CatB (by decide),
    (list_categories_spec [CatB, CatA] (some true)).2.1, ?_⟩
  exact ((list_categories_spec [CatB, CatA] none).2.2 (by decide)).2
    CatB (by decide) (by decide)
